import Mathlib

/-!
Verification model of the go-srvclient SRV resolution engine
(`srvclient.go`).  Go functions are embedded as pure Lean functions;
the DNS wire exchange, the resolver configuration and the standard
library address helpers are external collaborators and appear as
explicit function parameters (oracles).  Machine integers of the source
(uint16 record fields, int weight sums) are modelled as `Nat`: none of
the verified computations can overflow their Go types for realistic
inputs and no claim depends on wrap-around.
-/

namespace SrvClient

/-- An SRV resource record (`dns.SRV`): target host, port, priority and
weight, all numeric fields uint16 in the source. -/
structure SRV where
  target : String
  port : Nat
  priority : Nat
  weight : Nat
deriving DecidableEq, Repr

/-- Resource records of a DNS message relevant to the client: SRV
answers, A/AAAA glue used by `replaceSRVTarget`, and anything else. -/
inductive RR where
  | srvRR (s : SRV)
  | aRR (name ip : String)
  | aaaaRR (name ip : String)
  | otherRR
deriving DecidableEq, Repr

/-- The part of `dns.Msg` the client inspects: response code, the
truncation flag, the answer section and the extra (glue) section. -/
structure Msg where
  rcode : Nat
  truncated : Bool
  answer : List RR
  extra : List RR
deriving DecidableEq, Repr

/-- Model of `dns.RcodeSuccess` -/
def rcodeSuccess : Nat := 0

/-- Errors surfaced by the lookup path: a transport/exchange error, the
"no available nameservers" error built at `srvclient.go:341`, and
`ErrNotFound` from `errors.go`. -/
inductive DNSError where
  | exchange (s : String)
  | noNameservers
  | notFound (hostname : String)
deriving DecidableEq, Repr

/-! ## Selector (`pickSRV`, `srvclient.go:609-645`) -/

/-- One iteration of the tier-collection loop in `pickSRV`: reset the
candidate set when a strictly lower priority appears, then append the
record when it matches the current lowest priority. -/
def tierStep (st : Nat × List SRV) (s : SRV) : Nat × List SRV :=
  let lowPrio := if s.priority < st.1 then s.priority else st.1
  let picks := if s.priority < st.1 then [] else st.2
  if s.priority == lowPrio then (lowPrio, picks ++ [s]) else (lowPrio, picks)

/-- The minimum-priority tier computed by the first loop of `pickSRV`
(`picks`); `lowPrio` is seeded from the first record.  On the empty
list the Go code would panic indexing `srvs[0]`; the model returns `[]`. -/
def pickTier : List SRV → List SRV
  | [] => []
  | s :: rest => ((s :: rest).foldl tierStep (s.priority, [])).2

/-- The parallel `weights` array of `pickSRV` (each entry
`int(srvs[i].Weight)` for a tier member). -/
def tierWeights (srvs : List SRV) : List Nat :=
  (pickTier srvs).map SRV.weight

/-- The `sum` accumulator of `pickSRV`. -/
def weightSum (srvs : List SRV) : Nat :=
  (tierWeights srvs).sum

/-- The selection loop of `pickSRV` (`srvclient.go:637-642`): subtract
weights in iteration order and return the record at which the running
remainder goes negative; `none` when the loop falls through. -/
def selectByWeight : List SRV → Int → Option SRV
  | [], _ => none
  | p :: ps, r =>
    if r - (p.weight : Int) < 0 then some p else selectByWeight ps (r - (p.weight : Int))

/-- Model of `pickSRV`, with the value drawn by `rand.Intn(sum)` passed in as
`r` (the caller model guarantees `r < sum`; the random source is
consulted only on the `sum > 0` branch, which is the only branch whose
result depends on `r`). -/
def pickSRV (srvs : List SRV) (r : Nat) : Option SRV :=
  let picks := pickTier srvs
  if picks.length == 1 then picks.head?
  else if (picks.map SRV.weight).sum > 0 then
    match selectByWeight picks (r : Int) with
    | some p => some p
    | none => picks.head?
  else picks.head?

/-- Specification device: the index selected by the subtraction loop of
`pickSRV` for remainder `r`, i.e. the least `i` with
`r < weights[0] + ... + weights[i]`. -/
def chosenIdx : List Nat → Nat → Nat
  | [], _ => 0
  | w :: ws, r => if r < w then 0 else chosenIdx ws (r - w) + 1

/-! ## Sorting in `allSRV` (`srvclient.go:532-537`) -/

/-- The comparator passed to `sort.SliceStable` in `allSRV`: lower
priority first; inside one priority, higher weight first. -/
def srvLess (a b : SRV) : Bool :=
  if a.priority == b.priority then decide (b.weight < a.weight)
  else decide (a.priority < b.priority)

/-- Stable insertion of one record: `x` skips over records strictly
less than it and lands before the first record not less than it, so an
earlier record precedes every record it ties with. -/
def insertStable (x : SRV) : List SRV → List SRV
  | [] => [x]
  | y :: ys => if srvLess y x then y :: insertStable x ys else x :: y :: ys

/-- Model of the `sort.SliceStable(ans, less)` call in `allSRV`.  The
stable-sort contract (a permutation, sorted under the comparator, with
tied records keeping their original relative order) determines the
output list uniquely because `srvLess` is a strict weak order, and a
stable insertion sort realises exactly that contract. -/
def sortAll : List SRV → List SRV
  | [] => []
  | x :: xs => insertStable x (sortAll xs)

/-- Specification device for stability: records with exactly the given
priority and weight (the comparator's tie class). -/
def matchPW (p w : Nat) (s : SRV) : Bool :=
  s.priority == p && s.weight == w

/-! ## Address formatting (`srvToStr`, `srvclient.go:354-359`) -/

/-- Character membership in a string (model of the colon test inside
`net.JoinHostPort`). -/
def containsChar (s : String) (c : Char) : Bool :=
  s.data.contains c

/-- Model of `net.JoinHostPort`: hosts containing a colon (IPv6 literals) are
bracketed. -/
def joinHostPort (host port : String) : String :=
  if containsChar host ':' then "[" ++ host ++ "]:" ++ port else host ++ ":" ++ port

/-- Model of `srvToStr`: use the record's port unless the caller supplied one. -/
def srvToStr (srv : SRV) (port : String) : String :=
  let port2 := if port == "" then toString srv.port else port
  joinHostPort srv.target port2

/-! ## Answer extraction (`srvclient.go:95-104` and `266-278`) -/

/-- Model of `replaceSRVTarget`: walk the extra section and substitute the
record's target with a matching A/AAAA address. -/
def replaceSRVTarget (r : SRV) (extra : List RR) : SRV :=
  extra.foldl
    (fun r e =>
      match e with
      | .aRR name ip => if name == r.target then { r with target := ip } else r
      | .aaaaRR name ip => if name == r.target then { r with target := ip } else r
      | _ => r)
    r

/-- Model of `answersFromMsg`: collect the SRV records of the answer section in
order, optionally replacing targets with glue addresses. -/
def answersFromMsg (m : Msg) (replaceWithIPs : Bool) : List SRV :=
  m.answer.foldr
    (fun rr acc =>
      match rr with
      | .srvRR s => (if replaceWithIPs then replaceSRVTarget s m.extra else s) :: acc
      | _ => acc)
    []

/-! ## Last-good cache (`doCacheLast`, `srvclient.go:106-127`) -/

/-- The client state touched by `doCacheLast`: the `cacheLast` map
(`none` when `EnableCacheLast` was never called) and the two counters. -/
structure CacheState where
  cacheLast : Option (List (String × Msg))
  numCacheLastHits : Nat
  numCacheLastMisses : Nat
deriving DecidableEq, Repr

/-- Lookup in the model of the `cacheLast` Go map. -/
def alistFind : List (String × Msg) → String → Option Msg
  | [], _ => none
  | (k1, v) :: rest, k => if k1 == k then some v else alistFind rest k

/-- Insert/replace in the model of the `cacheLast` Go map. -/
def alistInsert : List (String × Msg) → String → Msg → List (String × Msg)
  | [], k, v => [(k, v)]
  | (k1, v1) :: rest, k, v =>
    if k1 == k then (k, v) :: rest else (k1, v1) :: alistInsert rest k v

/-- The read path of `doCacheLast` (`srvclient.go:111-121`): on a nil
or empty-answer result, return the cached entry and count a hit, or the
original result and count a miss. -/
def cacheLookup (st : CacheState) (cm : List (String × Msg)) (hostname : String)
    (res : Option Msg) : Option Msg × CacheState :=
  match alistFind cm hostname with
  | some cres => (some cres, { st with numCacheLastHits := st.numCacheLastHits + 1 })
  | none => (res, { st with numCacheLastMisses := st.numCacheLastMisses + 1 })

/-- Model of `doCacheLast`: identity when caching is disabled; store and return
unchanged on a non-nil, non-empty-answer result; otherwise the read
path. -/
def doCacheLast (st : CacheState) (hostname : String) (res : Option Msg) :
    Option Msg × CacheState :=
  match st.cacheLast with
  | none => (res, st)
  | some cm =>
    match res with
    | none => cacheLookup st cm hostname none
    | some m =>
      if m.answer.isEmpty then cacheLookup st cm hostname (some m)
      else (some m, { st with cacheLast := some (alistInsert cm hostname m) })

/-! ## Query executor (`innerLookupSRV`, `srvclient.go:206-264`) -/

/-- The two transports used by the executor. -/
inductive Transport where
  | udp
  | tcp
deriving DecidableEq, Repr

/-- The wire exchange as an oracle: `doExchange` for a transport and a
server returns a response and an error, either of which may be absent
(Go returns both values). -/
def Exchanger : Type := Transport → String → Option Msg × Option DNSError

/-- The server loop of `innerLookupSRV` (`srvclient.go:210-235`),
threading the `res`, `tres` and `err` variables: UDP first; on error
continue; on truncation remember the response and, unless
`IgnoreTruncated`, retry the same server over TCP; stop at the first
usable response. -/
def innerLoop (exch : Exchanger) (ignoreTruncated : Bool) :
    List String → Option Msg × Option Msg × Option DNSError →
    Option Msg × Option Msg × Option DNSError
  | [], st => st
  | server :: rest, (_, tres, _) =>
    match exch .udp server with
    | (none, err) => innerLoop exch ignoreTruncated rest (none, tres, err)
    | (some m, err) =>
      if err.isSome then innerLoop exch ignoreTruncated rest (some m, tres, err)
      else if m.truncated then
        if ignoreTruncated then innerLoop exch ignoreTruncated rest (some m, some m, err)
        else
          match exch .tcp server with
          | (none, err2) => innerLoop exch ignoreTruncated rest (none, some m, err2)
          | (some m2, err2) =>
            if err2.isSome then innerLoop exch ignoreTruncated rest (some m2, some m, err2)
            else (some m2, some m, err2)
      else (some m, tres, err)

/-- The loop of `innerLookupSRV` started from the zero values of `res`,
`tres` and `err`. -/
def innerLoopRes (exch : Exchanger) (ignoreTruncated : Bool) (servers : List String) :
    Option Msg × Option Msg × Option DNSError :=
  innerLoop exch ignoreTruncated servers (none, none, none)

/-- The substitution test at `srvclient.go:255`: the current result is
present but not a success, while the captured truncated response is a
success. -/
def truncSwap (res1 tres : Option Msg) : Bool :=
  match res1, tres with
  | some m, some t => m.rcode != rcodeSuccess && t.rcode == rcodeSuccess
  | _, _ => false

/-- The first cache interaction of the post-loop section
(`srvclient.go:247-251`): skipped entirely on the no-cache path. -/
def cacheStep (st : CacheState) (fqdn : String) (skipCache : Bool) (res0 : Option Msg) :
    Option Msg × CacheState :=
  if skipCache then (res0, st) else doCacheLast st fqdn res0

/-- The post-loop section of `innerLookupSRV` (`srvclient.go:247-263`):
run the result through the last-good cache, then, if the (possibly
substituted) result is a non-success and a truncated success was
captured, use the truncated one instead (again through the cache).
The `Preprocess` hook is not set in the modelled configuration. -/
def innerLookupPost (st : CacheState) (fqdn : String) (skipCache : Bool)
    (res0 tres : Option Msg) (err : Option DNSError) :
    (Option Msg × Option DNSError) × CacheState :=
  if truncSwap (cacheStep st fqdn skipCache res0).1 tres then
    if skipCache then ((tres, err), (cacheStep st fqdn skipCache res0).2)
    else
      (((doCacheLast (cacheStep st fqdn skipCache res0).2 fqdn tres).1, err),
        (doCacheLast (cacheStep st fqdn skipCache res0).2 fqdn tres).2)
  else (((cacheStep st fqdn skipCache res0).1, err), (cacheStep st fqdn skipCache res0).2)

/-- Model of `innerLookupSRV`: the server loop followed by the post-loop cache
and truncation handling. -/
def innerLookupSRV (exch : Exchanger) (ignoreTruncated : Bool) (st : CacheState)
    (fqdn : String) (servers : List String) (skipCache : Bool) :
    (Option Msg × Option DNSError) × CacheState :=
  innerLookupPost st fqdn skipCache
    (innerLoopRes exch ignoreTruncated servers).1
    (innerLoopRes exch ignoreTruncated servers).2.1
    (innerLoopRes exch ignoreTruncated servers).2.2

/-! ## Lookup facade (`lookupSRV`, `srv`, `allSRV`) -/

/-- Model of `dns.Fqdn`: ensure a trailing dot (escaped trailing dots, which
`dns.IsFqdn` treats specially, do not occur in the modelled inputs). -/
def fqdnOf (s : String) : String :=
  if s.data.getLast? == some '.' then s else s ++ "."

/-- The tail of `lookupSRV` (`srvclient.go:339-351`): a nil message
becomes an error (the stored exchange error, or "no available
nameservers"); an answer without SRV records becomes `ErrNotFound`;
otherwise the records are returned together with any leftover error. -/
def lookupSRVTail (hostname : String) (msg : Option Msg) (err : Option DNSError)
    (replaceWithIPs : Bool) : List SRV × Option DNSError :=
  match msg with
  | none =>
    ([], some (match err with | some e => e | none => .noNameservers))
  | some m =>
    let ans := answersFromMsg m replaceWithIPs
    if ans.isEmpty then ([], some (.notFound hostname)) else (ans, err)

/-- Model of `lookupSRV` on the non-coalescing path (`SingleInFlight = false`):
`innerLookupSRV` on the fully-qualified name, then the answer
extraction. -/
def lookupSRVPipeline (exch : Exchanger) (ignoreTruncated : Bool) (st : CacheState)
    (hostname : String) (servers : List String) (replaceWithIPs skipCache : Bool) :
    (List SRV × Option DNSError) × CacheState :=
  let r := innerLookupSRV exch ignoreTruncated st (fqdnOf hostname) servers skipCache
  (lookupSRVTail hostname r.1.1 r.1.2 replaceWithIPs, r.2)

/-- Outcome of the single-target facade: a formatted address with a
possibly non-nil leftover error, a fatal error with no address, or the
panic the Go code hits if `pickSRV` is reached with no records. -/
inductive SrvOut where
  | ok (addr : String) (err : Option DNSError)
  | fatal (e : DNSError)
  | panicked
deriving DecidableEq, Repr

/-- Model of `srv` after the lookup returned (`srvclient.go:372-382`): fail only
when there is no answer at all, otherwise pick a record and format it,
passing any leftover error alongside. -/
def srvAfterLookup (ans : List SRV) (err : Option DNSError) (portStr : String)
    (r : Nat) : SrvOut :=
  match ans, err with
  | [], some e => .fatal e
  | _, _ =>
    match pickSRV ans r with
    | some s => .ok (srvToStr s portStr) err
    | none => .panicked

/-- Model of `srv` (`srvclient.go:361-383`), with `net.SplitHostPort` and
`net.ParseIP` as oracles (`split` returns `none` where Go returns an
error, which `srv` ignores, leaving host and port empty) and the rest
of `lookupSRV` as the `lookup` oracle.  The returned Bool records
whether `lookupSRV` was invoked. -/
def srv (split : String → Option (String × String)) (isIP : String → Bool)
    (lookup : String → List SRV × Option DNSError) (r : Nat) (hostname : String) :
    SrvOut × Bool :=
  let hp := match split hostname with
            | some (h, p) => (h, p)
            | none => ("", "")
  if hp.2 != "" && hp.1 != "" then
    if isIP hp.1 then (.ok hostname none, false)
    else
      let lr := lookup hp.1
      (srvAfterLookup lr.1 lr.2 hp.2 r, true)
  else
    let lr := lookup hostname
    (srvAfterLookup lr.1 lr.2 "" r, true)

/-- Model of `allSRV` after the lookup returned (`srvclient.go:525-543`): fail
only when there is no answer at all, otherwise sort stably and format
every record, passing any leftover error alongside. -/
def allSRVAfterLookup (ans : List SRV) (err : Option DNSError) (ogPort : String) :
    Option (List String) × Option DNSError :=
  match ans, err with
  | [], some e => (none, some e)
  | _, _ => (some ((sortAll ans).map (fun s => srvToStr s ogPort)), err)

/-- Model of `strings.Split(hostname, ":")` over the character list. -/
def splitChars : List Char → List (List Char)
  | [] => [[]]
  | c :: cs =>
    if c == ':' then [] :: splitChars cs
    else
      match splitChars cs with
      | [] => [[c]]
      | g :: gs => (c :: g) :: gs

/-- Model of `strings.Split(hostname, ":")`. -/
def splitOnColon (s : String) : List String :=
  (splitChars s.data).map String.mk

/-- Model of `allSRV` (`srvclient.go:516-544`): split off an original port when
the hostname has exactly one colon, look up, sort and format. -/
def allSRV (lookup : String → List SRV × Option DNSError) (hostname : String) :
    Option (List String) × Option DNSError :=
  let parts := splitOnColon hostname
  let hn := if parts.length == 2 then parts.getD 0 "" else hostname
  let ogPort := if parts.length == 2 then parts.getD 1 "" else ""
  let lr := lookup hn
  allSRVAfterLookup lr.1 lr.2 ogPort

/-! ## In-flight coalescer completion order (`srvclient.go:310-334`) -/

/-- Observable actions of the goroutine owning an in-flight run. -/
inductive RunEvent where
  | setResult
  | deleteKey
  | closeDone
deriving DecidableEq, Repr

/-- Go `defer` semantics: the function body runs first, then the
registered defers in reverse registration order. -/
def runWithDefers (body : List RunEvent) (defers : List RunEvent) : List RunEvent :=
  body ++ defers.reverse

/-- The `do` closure of `lookupSRV` (`srvclient.go:311-315`): it
registers `defer close(res.done)` then `defer sc.inFlights.Delete(key)`
and its body stores the lookup result. -/
def doEvents : List RunEvent :=
  runWithDefers [.setResult] [.closeDone, .deleteKey]

/-- State visible to other goroutines: whether the key is still in the
`inFlights` registry, whether `res.done` is closed (waiters released),
and whether the result fields are set. -/
structure RunState where
  inFlight : Bool
  doneClosed : Bool
  resultSet : Bool
deriving DecidableEq, Repr

/-- Effect of one owning-goroutine action on the shared state. -/
def applyEvent (s : RunState) : RunEvent → RunState
  | .setResult => { s with resultSet := true }
  | .deleteKey => { s with inFlight := false }
  | .closeDone => { s with doneClosed := true }

/-- All states an observer ordered after a prefix of the events can
see (channel close and `sync.Map` operations give the observer the
happens-before edges). -/
def statesFrom (init : RunState) : List RunEvent → List RunState
  | [] => [init]
  | e :: es => init :: statesFrom (applyEvent init e) es

/-- The registry interaction of an arriving caller
(`srvclient.go:296-307`): it starts a new run exactly when the key is
absent (`LoadOrStore` reports not loaded). -/
def callerStartsNewRun (registryHasKey : Bool) : Bool :=
  !registryHasKey

/-! ## Waiter copy step (`srvclient.go:328-334`) -/

/-- Model of `(*dns.Msg).Copy` called on a message pointer: on a nil pointer the
method dereferences its receiver (`CopyTo` reads `dns.MsgHdr`) and the
program panics; on a non-nil pointer it yields a copy of the message. -/
def copyMsg : Option Msg → Except String Msg
  | none => .error "nil pointer dereference"
  | some m => .ok m

/-- A waiter released by `<-res.done`: it runs `msg = res.msg.Copy()`
and reads `res.err` (`srvclient.go:331-333`). -/
def waiterReceive (resMsg : Option Msg) (resErr : Option DNSError) :
    Except String (Msg × Option DNSError) :=
  match copyMsg resMsg with
  | .ok m => .ok (m, resErr)
  | .error e => .error e

/-! ## Concrete inputs used by witnesses and counterexamples -/

/-- A two-member priority tier whose weights are all zero. -/
def zeroA : SRV := ⟨"a", 80, 1, 0⟩

/-- Second member of the zero-weight tier. -/
def zeroB : SRV := ⟨"b", 81, 1, 0⟩

/-- A successful non-empty response used as a concrete cache entry. -/
def cachedMsg : Msg := ⟨0, false, [.srvRR ⟨"cached.host.", 1234, 5, 7⟩], []⟩

/-- A truncated success response captured before the TCP retry. -/
def truncMsg : Msg := ⟨0, true, [.srvRR ⟨"t.host.", 1, 1, 1⟩], []⟩

/-- A complete but failed (rcode 2) response from the TCP retry. -/
def servFailMsg : Msg := ⟨2, false, [], []⟩

/-- Exchange oracle: UDP answers truncated-but-success, TCP answers
complete-but-failed. -/
def truncExch : Exchanger := fun tr _ =>
  match tr with
  | .udp => (some truncMsg, none)
  | .tcp => (some servFailMsg, none)

/-- Exchange oracle on which every server errors with a nil response. -/
def failExch : Exchanger := fun _ _ => (none, some (.exchange "connection refused"))

/-- Split oracle recognising one literal `ip:port` input. -/
def ipSplit : String → Option (String × String) := fun s =>
  if s == "10.0.0.2:9999" then some ("10.0.0.2", "9999") else none

/-! ## Selector lemmas -/

theorem tierStep_eq (lp : Nat) (acc : List SRV) (s : SRV) :
    tierStep (lp, acc) s =
      if s.priority < lp then (s.priority, [s])
      else if s.priority = lp then (lp, acc ++ [s]) else (lp, acc) := by
  unfold tierStep
  by_cases h1 : s.priority < lp
  · simp [h1]
  · by_cases h2 : s.priority = lp <;> simp [h1, h2]

theorem tierFold_inv (l : List SRV) (lp : Nat) (acc : List SRV)
    (hacc : ∀ x ∈ acc, x.priority = lp) (hne : acc ≠ []) :
    (∀ x ∈ (l.foldl tierStep (lp, acc)).2, x.priority = (l.foldl tierStep (lp, acc)).1) ∧
    (l.foldl tierStep (lp, acc)).1 ≤ lp ∧
    (∀ q ∈ l, (l.foldl tierStep (lp, acc)).1 ≤ q.priority) ∧
    (∀ x ∈ (l.foldl tierStep (lp, acc)).2, x ∈ acc ∨ x ∈ l) ∧
    (l.foldl tierStep (lp, acc)).2 ≠ [] := by
  induction l generalizing lp acc with
  | nil =>
    refine ⟨hacc, le_refl _, by simp, fun x hx => Or.inl hx, hne⟩
  | cons s l ih =>
    rw [List.foldl_cons, tierStep_eq]
    by_cases h1 : s.priority < lp
    · rw [if_pos h1]
      obtain ⟨i1, i2, i3, i4, i5⟩ := ih s.priority [s] (by simp) (by simp)
      refine ⟨i1, le_of_lt (lt_of_le_of_lt i2 h1), ?_, ?_, i5⟩
      · intro q hq
        rcases List.mem_cons.mp hq with rfl | hq
        · exact i2
        · exact i3 q hq
      · intro x hx
        rcases i4 x hx with hx1 | hx1
        · simp at hx1
          subst hx1
          exact Or.inr (List.mem_cons_self _ _)
        · exact Or.inr (List.mem_cons_of_mem _ hx1)
    · by_cases h2 : s.priority = lp
      · rw [if_neg h1, if_pos h2]
        obtain ⟨i1, i2, i3, i4, i5⟩ := ih lp (acc ++ [s])
          (by
            intro x hx
            rcases List.mem_append.mp hx with hx1 | hx1
            · exact hacc x hx1
            · simp at hx1; subst hx1; exact h2)
          (by simp)
        refine ⟨i1, i2, ?_, ?_, i5⟩
        · intro q hq
          rcases List.mem_cons.mp hq with rfl | hq
          · rw [h2]; exact i2
          · exact i3 q hq
        · intro x hx
          rcases i4 x hx with hx1 | hx1
          · rcases List.mem_append.mp hx1 with hx2 | hx2
            · exact Or.inl hx2
            · simp at hx2; subst hx2; exact Or.inr (List.mem_cons_self _ _)
          · exact Or.inr (List.mem_cons_of_mem _ hx1)
      · rw [if_neg h1, if_neg h2]
        obtain ⟨i1, i2, i3, i4, i5⟩ := ih lp acc hacc hne
        refine ⟨i1, i2, ?_, ?_, i5⟩
        · intro q hq
          rcases List.mem_cons.mp hq with rfl | hq
          · exact le_of_lt (lt_of_le_of_lt i2 (by omega))
          · exact i3 q hq
        · intro x hx
          rcases i4 x hx with hx1 | hx1
          · exact Or.inl hx1
          · exact Or.inr (List.mem_cons_of_mem _ hx1)

theorem pickTier_cons (s : SRV) (rest : List SRV) :
    pickTier (s :: rest) = (rest.foldl tierStep (s.priority, [s])).2 := by
  show (List.foldl tierStep (s.priority, []) (s :: rest)).2 = _
  rw [List.foldl_cons, tierStep_eq]
  simp

theorem pickTier_spec (s : SRV) (rest : List SRV) :
    pickTier (s :: rest) ≠ [] ∧
    (∀ x ∈ pickTier (s :: rest), x ∈ s :: rest) ∧
    (∀ x ∈ pickTier (s :: rest), ∀ q ∈ s :: rest, x.priority ≤ q.priority) := by
  rw [pickTier_cons]
  obtain ⟨i1, i2, i3, i4, i5⟩ :=
    tierFold_inv rest s.priority [s] (by simp) (by simp)
  refine ⟨i5, ?_, ?_⟩
  · intro x hx
    rcases i4 x hx with hx1 | hx1
    · simp at hx1; subst hx1; exact List.mem_cons_self _ _
    · exact List.mem_cons_of_mem _ hx1
  · intro x hx q hq
    rw [i1 x hx]
    rcases List.mem_cons.mp hq with rfl | hq
    · exact i2
    · exact i3 q hq

theorem selectByWeight_mem (l : List SRV) (r : Int) (x : SRV)
    (h : selectByWeight l r = some x) : x ∈ l := by
  induction l generalizing r with
  | nil => simp [selectByWeight] at h
  | cons p ps ih =>
    unfold selectByWeight at h
    by_cases hc : r - (p.weight : Int) < 0
    · simp [hc] at h
      subst h
      exact List.mem_cons_self _ _
    · simp [hc] at h
      exact List.mem_cons_of_mem _ (ih _ h)

theorem pickSRV_total_mem (srvs : List SRV) (r : Nat) (hne : pickTier srvs ≠ []) :
    ∃ x, pickSRV srvs r = some x ∧ x ∈ pickTier srvs := by
  unfold pickSRV
  obtain ⟨p, ps, hp⟩ := List.exists_cons_of_ne_nil hne
  rw [hp]
  by_cases h1 : ((p :: ps).length == 1) = true
  · simp only [h1, if_true]
    exact ⟨p, rfl, List.mem_cons_self _ _⟩
  · simp only [h1]
    by_cases h2 : ((p :: ps).map SRV.weight).sum > 0
    · simp only [h2, if_true, Bool.false_eq_true, if_false]
      cases hsel : selectByWeight (p :: ps) (r : Int) with
      | none => exact ⟨p, rfl, List.mem_cons_self _ _⟩
      | some x => exact ⟨x, rfl, selectByWeight_mem _ _ _ hsel⟩
    · simp only [h2, Bool.false_eq_true, if_false]
      exact ⟨p, rfl, List.mem_cons_self _ _⟩

theorem selectByWeight_eq_get (l : List SRV) (r : Nat) :
    selectByWeight l (r : Int) = l[chosenIdx (l.map SRV.weight) r]? := by
  induction l generalizing r with
  | nil => simp [selectByWeight, chosenIdx]
  | cons p ps ih =>
    by_cases h : r < p.weight
    · have hneg : (r : Int) - (p.weight : Int) < 0 := by omega
      simp [selectByWeight, chosenIdx, h, hneg]
    · have hpos : ¬ ((r : Int) - (p.weight : Int) < 0) := by omega
      have hcast : (r : Int) - (p.weight : Int) = ((r - p.weight : Nat) : Int) := by omega
      have hnn : ¬ (((r - p.weight : Nat) : Int) < 0) := by omega
      simp only [selectByWeight, hpos, if_false, hcast, hnn, ih, List.map_cons, chosenIdx, h,
        List.getElem?_cons_succ]

theorem chosenIdx_lt_length (ws : List Nat) (r : Nat) (h : r < ws.sum) :
    chosenIdx ws r < ws.length := by
  induction ws generalizing r with
  | nil => simp at h
  | cons w ws ih =>
    by_cases hr : r < w
    · simp [chosenIdx, hr]
    · have hlt : r - w < ws.sum := by
        simp only [List.sum_cons] at h
        omega
      simp only [chosenIdx, hr, if_false, List.length_cons]
      exact Nat.succ_lt_succ (ih _ hlt)

theorem chosenIdx_card (ws : List Nat) (i : Nat) (hi : i < ws.length) :
    ((Finset.range ws.sum).filter (fun r => chosenIdx ws r = i)).card = ws.getD i 0 := by
  induction ws generalizing i with
  | nil => simp at hi
  | cons w ws ih =>
    cases i with
    | zero =>
      have hset : (Finset.range (w :: ws).sum).filter (fun r => chosenIdx (w :: ws) r = 0)
          = Finset.range w := by
        ext r
        simp only [Finset.mem_filter, Finset.mem_range, List.sum_cons]
        constructor
        · rintro ⟨hr, hc⟩
          by_contra hlt
          simp [chosenIdx, hlt] at hc
        · intro hr
          exact ⟨by omega, by simp [chosenIdx, hr]⟩
      rw [hset, Finset.card_range]
      rfl
    | succ i =>
      have hlen : i < ws.length := by simpa using hi
      have hset : (Finset.range ((w :: ws).sum)).filter (fun r => chosenIdx (w :: ws) r = i + 1)
          = ((Finset.range ws.sum).filter (fun r => chosenIdx ws r = i)).image
              (fun r => r + w) := by
        ext r
        simp only [Finset.mem_filter, Finset.mem_range, Finset.mem_image, List.sum_cons]
        constructor
        · rintro ⟨hr, hc⟩
          have hge : ¬ r < w := by
            by_contra hlt
            simp [chosenIdx, hlt] at hc
          refine ⟨r - w, ⟨by omega, ?_⟩, by omega⟩
          simp only [chosenIdx, hge, if_false] at hc
          omega
        · rintro ⟨q, ⟨hq, hcq⟩, rfl⟩
          have hge : ¬ q + w < w := by omega
          refine ⟨by omega, ?_⟩
          simp only [chosenIdx, hge, if_false, Nat.add_sub_cancel]
          omega
      rw [hset, Finset.card_image_of_injective _ (fun a b hab => by omega), ih i hlen]
      rfl

/-! ## Sorting lemmas -/

theorem srvLess_iff (a b : SRV) :
    srvLess a b = true ↔
      a.priority < b.priority ∨ (a.priority = b.priority ∧ b.weight < a.weight) := by
  unfold srvLess
  by_cases h : a.priority = b.priority <;> simp [h]

theorem srvLess_false_iff (a b : SRV) :
    srvLess a b = false ↔
      ¬ (a.priority < b.priority ∨ (a.priority = b.priority ∧ b.weight < a.weight)) := by
  rw [← srvLess_iff]
  cases srvLess a b <;> simp

theorem srvLess_asymm (a b : SRV) (h : srvLess a b = true) : srvLess b a = false := by
  rw [srvLess_iff] at h
  rw [srvLess_false_iff]
  omega

theorem srvLess_neg_trans (a b c : SRV) (h1 : srvLess b a = false)
    (h2 : srvLess c b = false) : srvLess c a = false := by
  rw [srvLess_false_iff] at h1 h2 ⊢
  omega

theorem insertStable_perm (x : SRV) (l : List SRV) :
    List.Perm (insertStable x l) (x :: l) := by
  induction l with
  | nil => exact List.Perm.refl _
  | cons y ys ih =>
    by_cases h : srvLess y x = true
    · simp only [insertStable, h, if_true]
      exact (List.Perm.cons y ih).trans (List.Perm.swap x y ys)
    · simp only [insertStable, h, if_false]
      exact List.Perm.refl _

theorem mem_insertStable (x z : SRV) (l : List SRV) :
    z ∈ insertStable x l ↔ z = x ∨ z ∈ l := by
  rw [(insertStable_perm x l).mem_iff]
  simp

theorem insertStable_cons_lt (x y : SRV) (ys : List SRV) (h : srvLess y x = true) :
    insertStable x (y :: ys) = y :: insertStable x ys := by
  simp [insertStable, h]

theorem insertStable_cons_ge (x y : SRV) (ys : List SRV) (h : srvLess y x = false) :
    insertStable x (y :: ys) = x :: y :: ys := by
  simp [insertStable, h]

theorem insertStable_pairwise (x : SRV) (l : List SRV)
    (hl : l.Pairwise (fun a b => srvLess b a = false)) :
    (insertStable x l).Pairwise (fun a b => srvLess b a = false) := by
  induction l with
  | nil => simp [insertStable]
  | cons y ys ih =>
    rw [List.pairwise_cons] at hl
    obtain ⟨hy, hys⟩ := hl
    cases h : srvLess y x with
    | true =>
      rw [insertStable_cons_lt x y ys h, List.pairwise_cons]
      refine ⟨?_, ih hys⟩
      intro z hz
      rcases (mem_insertStable x z ys).mp hz with rfl | hz
      · exact srvLess_asymm y z h
      · exact hy z hz
    | false =>
      rw [insertStable_cons_ge x y ys h, List.pairwise_cons]
      refine ⟨?_, List.pairwise_cons.mpr ⟨hy, hys⟩⟩
      intro z hz
      rcases List.mem_cons.mp hz with rfl | hz
      · exact h
      · exact srvLess_neg_trans x y z h (hy z hz)

theorem sortAll_perm (l : List SRV) : List.Perm (sortAll l) l := by
  induction l with
  | nil => exact List.Perm.refl _
  | cons x xs ih =>
    exact (insertStable_perm x (sortAll xs)).trans (List.Perm.cons x ih)

theorem sortAll_pairwise (l : List SRV) :
    (sortAll l).Pairwise (fun a b => srvLess b a = false) := by
  induction l with
  | nil => simp [sortAll]
  | cons x xs ih => exact insertStable_pairwise x (sortAll xs) ih

theorem matchPW_skip (p w : Nat) (x y : SRV) (hx : matchPW p w x = true)
    (hlt : srvLess y x = true) : matchPW p w y = false := by
  unfold matchPW at hx ⊢
  rw [srvLess_iff] at hlt
  simp only [Bool.and_eq_true, beq_iff_eq] at hx
  cases hy : (y.priority == p && y.weight == w)
  · rfl
  · simp only [Bool.and_eq_true, beq_iff_eq] at hy
    omega

theorem filter_insertStable (p w : Nat) (x : SRV) (l : List SRV) :
    (insertStable x l).filter (matchPW p w) =
      if matchPW p w x then x :: l.filter (matchPW p w)
      else l.filter (matchPW p w) := by
  induction l with
  | nil =>
    cases hx : matchPW p w x <;> simp [insertStable, List.filter, hx]
  | cons y ys ih =>
    cases h : srvLess y x with
    | true =>
      rw [insertStable_cons_lt x y ys h]
      cases hx : matchPW p w x with
      | true =>
        have hy : matchPW p w y = false := matchPW_skip p w x y hx h
        rw [List.filter_cons_of_neg (by simp [hy]),
          List.filter_cons_of_neg (by simp [hy]), ih, if_pos hx, if_pos rfl]
      | false =>
        rw [if_neg (by simp)]
        cases hy : matchPW p w y with
        | true =>
          rw [List.filter_cons_of_pos hy, List.filter_cons_of_pos hy, ih,
            if_neg (by simp [hx])]
        | false =>
          rw [List.filter_cons_of_neg (by simp [hy]),
            List.filter_cons_of_neg (by simp [hy]), ih, if_neg (by simp [hx])]
    | false =>
      rw [insertStable_cons_ge x y ys h]
      cases hx : matchPW p w x with
      | true => rw [List.filter_cons_of_pos hx, if_pos rfl]
      | false => rw [List.filter_cons_of_neg (by simp [hx]), if_neg (by simp)]

theorem sortAll_filter (p w : Nat) (l : List SRV) :
    (sortAll l).filter (matchPW p w) = l.filter (matchPW p w) := by
  induction l with
  | nil => rfl
  | cons x xs ih =>
    show (insertStable x (sortAll xs)).filter (matchPW p w) = _
    rw [filter_insertStable, List.filter_cons]
    by_cases hx : matchPW p w x = true
    · rw [if_pos hx, if_pos (by simp [hx]), ih]
    · rw [if_neg hx, if_neg (by simp [hx]), ih]

/-! ## Cache lemmas -/

theorem alistFind_insert (l : List (String × Msg)) (k : String) (v : Msg) (k2 : String) :
    alistFind (alistInsert l k v) k2 = if k == k2 then some v else alistFind l k2 := by
  induction l with
  | nil => rfl
  | cons e rest ih =>
    obtain ⟨k1, v1⟩ := e
    by_cases h1 : k1 = k
    · subst h1
      have hrw : alistInsert ((k1, v1) :: rest) k1 v = (k1, v) :: rest := by
        simp [alistInsert]
      rw [hrw]
      by_cases h2 : k1 = k2 <;> simp [alistFind, h2]
    · have hrw : alistInsert ((k1, v1) :: rest) k v = (k1, v1) :: alistInsert rest k v := by
        simp [alistInsert, h1]
      rw [hrw]
      by_cases h2 : k1 = k2
      · subst h2
        have hkk2 : ¬ k = k1 := fun he => h1 he.symm
        simp [alistFind, hkk2]
      · simp [alistFind, h2, ih]

theorem doCacheLast_disabled (st : CacheState) (h : st.cacheLast = none)
    (hostname : String) (res : Option Msg) :
    doCacheLast st hostname res = (res, st) := by
  unfold doCacheLast
  rw [h]

theorem doCacheLast_store (cm : List (String × Msg)) (hits misses : Nat)
    (hostname : String) (m : Msg) (hne : m.answer ≠ []) :
    doCacheLast ⟨some cm, hits, misses⟩ hostname (some m) =
      (some m, ⟨some (alistInsert cm hostname m), hits, misses⟩) := by
  unfold doCacheLast
  have he : m.answer.isEmpty = false := by
    cases ha : m.answer
    · exact absurd ha hne
    · rfl
  simp [he]

theorem doCacheLast_hit (cm : List (String × Msg)) (hits misses : Nat)
    (hostname : String) (res : Option Msg) (c : Msg)
    (hres : res = none ∨ ∃ m, res = some m ∧ m.answer = [])
    (hfind : alistFind cm hostname = some c) :
    doCacheLast ⟨some cm, hits, misses⟩ hostname res =
      (some c, ⟨some cm, hits + 1, misses⟩) := by
  unfold doCacheLast cacheLookup
  rcases hres with rfl | ⟨m, rfl, hm⟩
  · simp [hfind]
  · simp [hm, hfind, List.isEmpty]

theorem doCacheLast_miss (cm : List (String × Msg)) (hits misses : Nat)
    (hostname : String) (res : Option Msg)
    (hres : res = none ∨ ∃ m, res = some m ∧ m.answer = [])
    (hfind : alistFind cm hostname = none) :
    doCacheLast ⟨some cm, hits, misses⟩ hostname res =
      (res, ⟨some cm, hits, misses + 1⟩) := by
  unfold doCacheLast cacheLookup
  rcases hres with rfl | ⟨m, rfl, hm⟩
  · simp [hfind]
  · simp [hm, hfind, List.isEmpty]

/-! ## Claims -/

/-- C1 counterexample: on the candidate set `{a: pri 1/w 0, b: pri 1/w 0}`
the minimum-priority tier has two members and weight sum zero, yet
`pickSRV` is the constant function returning the first member for every
possible draw — the second member is never selected, so selection is
not uniformly random among the tier members. -/
theorem pickSRV_zero_sum_not_uniform :
    (fun r : Nat => pickSRV [zeroA, zeroB] r) = (fun _ => some zeroA) ∧
    zeroA ≠ zeroB ∧ pickTier [zeroA, zeroB] = [zeroA, zeroB] := by
  refine ⟨rfl, by decide, by decide⟩

/-- C1 (amended): for every set of candidate SRV records whose
minimum-priority tier has more than one member and whose tier weight
sum is zero, `pickSRV` deterministically returns the first tier member
in iteration order, for every value of the random draw (no member other
than the first is ever selected). -/
theorem pickSRV_zero_sum_first (srvs : List SRV) (r : Nat)
    (h1 : 1 < (pickTier srvs).length) (h2 : weightSum srvs = 0) :
    pickSRV srvs r = (pickTier srvs).head? := by
  unfold pickSRV
  have hlen : ((pickTier srvs).length == 1) = false := by
    simp only [beq_eq_false_iff_ne, ne_eq]
    omega
  have hsum : ¬ ((pickTier srvs).map SRV.weight).sum > 0 := by
    have : weightSum srvs = ((pickTier srvs).map SRV.weight).sum := rfl
    omega
  simp [hlen, hsum]

/-- C1 (amended) witness at the zero-weight two-member tier. -/
theorem pickSRV_zero_sum_first_witness :
    pickSRV [zeroA, zeroB] 5 = some zeroA := by
  have h := pickSRV_zero_sum_first [zeroA, zeroB] 5 (by decide) (by decide)
  exact h.trans (by decide)

/-- C2: for every non-empty list of SRV records and every draw,
`pickSRV` returns a record of the list whose priority is the minimum
priority present; a record with a numerically higher priority is never
returned, regardless of weights. -/
theorem pickSRV_min_priority (s0 : SRV) (rest : List SRV) (r : Nat) :
    ∃ x, pickSRV (s0 :: rest) r = some x ∧ x ∈ s0 :: rest ∧
      ∀ q ∈ s0 :: rest, x.priority ≤ q.priority := by
  obtain ⟨hne, hmem, hmin⟩ := pickTier_spec s0 rest
  obtain ⟨x, hx, hxt⟩ := pickSRV_total_mem (s0 :: rest) r hne
  exact ⟨x, hx, hmem x hxt, fun q hq => hmin x hxt q hq⟩

/-- C2 witness at the spec's four-record example (priorities 2,1,2,1). -/
theorem pickSRV_min_priority_witness :
    ∃ x, pickSRV (⟨"a", 0, 2, 100⟩ ::
        [⟨"b", 0, 1, 100⟩, ⟨"c", 0, 2, 100⟩, ⟨"d", 0, 1, 100⟩]) 50 = some x ∧
      x ∈ (⟨"a", 0, 2, 100⟩ :: [⟨"b", 0, 1, 100⟩, ⟨"c", 0, 2, 100⟩, ⟨"d", 0, 1, 100⟩] : List SRV) ∧
      ∀ q ∈ (⟨"a", 0, 2, 100⟩ :: [⟨"b", 0, 1, 100⟩, ⟨"c", 0, 2, 100⟩, ⟨"d", 0, 1, 100⟩] : List SRV),
        x.priority ≤ q.priority :=
  pickSRV_min_priority _ _ 50

/-- C7: when the minimum-priority tier has exactly one member,
`pickSRV` returns it for every draw (the random source is never
consulted, so the result does not depend on it); when the tier has more
members and a positive weight sum, for a draw `r < sum` the result is
the tier record at the first index where subtracting the accumulated
weights makes `r` negative, and the number of draws in `[0, sum)`
selecting index `i` equals the `i`-th weight — selection probability
proportional to weight. -/
theorem pickSRV_weighted (srvs : List SRV) :
    ((pickTier srvs).length = 1 → ∀ r, pickSRV srvs r = (pickTier srvs).head?) ∧
    (1 < (pickTier srvs).length → 0 < weightSum srvs → ∀ r, r < weightSum srvs →
      pickSRV srvs r = (pickTier srvs)[chosenIdx (tierWeights srvs) r]?) ∧
    (∀ i, i < (pickTier srvs).length →
      ((Finset.range (weightSum srvs)).filter
        (fun r => chosenIdx (tierWeights srvs) r = i)).card = (tierWeights srvs).getD i 0) := by
  refine ⟨?_, ?_, ?_⟩
  · intro h r
    unfold pickSRV
    have hlen : ((pickTier srvs).length == 1) = true := by simpa using h
    simp [hlen]
  · intro h1 hsum r hr
    have hs : ((pickTier srvs).map SRV.weight).sum > 0 := hsum
    have hidx : chosenIdx (tierWeights srvs) r < (pickTier srvs).length := by
      have h2 := chosenIdx_lt_length (tierWeights srvs) r hr
      simpa [tierWeights] using h2
    have hlen : ¬ (((pickTier srvs).length == 1) = true) := by
      simp only [beq_iff_eq]
      omega
    show (if ((pickTier srvs).length == 1) = true then (pickTier srvs).head?
      else if ((pickTier srvs).map SRV.weight).sum > 0 then
        match selectByWeight (pickTier srvs) (r : Int) with
        | some p => some p
        | none => (pickTier srvs).head?
      else (pickTier srvs).head?) = (pickTier srvs)[chosenIdx (tierWeights srvs) r]?
    rw [if_neg hlen, if_pos hs, selectByWeight_eq_get]
    cases hget : (pickTier srvs)[chosenIdx ((pickTier srvs).map SRV.weight) r]? with
    | none =>
      exfalso
      rw [List.getElem?_eq_none_iff] at hget
      have h3 : (pickTier srvs).length ≤ chosenIdx (tierWeights srvs) r := hget
      omega
    | some x =>
      have h4 : (pickTier srvs)[chosenIdx (tierWeights srvs) r]? = some x := hget
      rw [h4]
  · intro i hi
    exact chosenIdx_card (tierWeights srvs) i (by simpa [tierWeights] using hi)

/-- C7 witness: in the tier `{b: w 50, d: w 100}` (sum 150) the draw 60
lands past b's sub-range `[0,50)` and selects d. -/
theorem pickSRV_weighted_witness :
    pickSRV [⟨"a", 0, 2, 100⟩, ⟨"b", 0, 1, 50⟩, ⟨"c", 0, 2, 100⟩, ⟨"d", 0, 1, 100⟩] 60
      = some ⟨"d", 0, 1, 100⟩ := by
  have h := (pickSRV_weighted
    [⟨"a", 0, 2, 100⟩, ⟨"b", 0, 1, 50⟩, ⟨"c", 0, 2, 100⟩, ⟨"d", 0, 1, 100⟩]).2.1
    (by decide) (by decide) 60 (by decide)
  exact h.trans (by decide)

/-- C8: the all-targets sort is a permutation of its input, leaves no
adjacent pair inverted under the comparator (priority ascending, weight
descending inside a priority), preserves the relative order of records
tying on both priority and weight (their filter is unchanged), and on
the spec's example `{a: 2/100, b: 1/100, c: 2/100, d: 1/100}` yields
`[b, d, a, c]`. -/
theorem allSRV_sortAll_spec (l : List SRV) :
    List.Perm (sortAll l) l ∧
    (sortAll l).Pairwise (fun a b => srvLess b a = false) ∧
    (∀ p w, (sortAll l).filter (matchPW p w) = l.filter (matchPW p w)) ∧
    sortAll [⟨"a", 0, 2, 100⟩, ⟨"b", 0, 1, 100⟩, ⟨"c", 0, 2, 100⟩, ⟨"d", 0, 1, 100⟩]
      = [⟨"b", 0, 1, 100⟩, ⟨"d", 0, 1, 100⟩, ⟨"a", 0, 2, 100⟩, ⟨"c", 0, 2, 100⟩] ∧
    allSRV (fun _ => ([⟨"a", 0, 2, 100⟩, ⟨"b", 0, 1, 100⟩, ⟨"c", 0, 2, 100⟩,
        ⟨"d", 0, 1, 100⟩], none)) "svc"
      = (some ["b:0", "d:0", "a:0", "c:0"], none) :=
  ⟨sortAll_perm l, sortAll_pairwise l, fun p w => sortAll_filter p w l, by decide, by decide⟩

/-- C8 witness: the tie-class filter is unchanged on the example list
for the class priority 1 / weight 100. -/
theorem allSRV_sortAll_spec_witness :
    (sortAll [⟨"a", 0, 2, 100⟩, ⟨"b", 0, 1, 100⟩, ⟨"c", 0, 2, 100⟩,
        ⟨"d", 0, 1, 100⟩]).filter (matchPW 1 100)
      = ([⟨"a", 0, 2, 100⟩, ⟨"b", 0, 1, 100⟩, ⟨"c", 0, 2, 100⟩,
        ⟨"d", 0, 1, 100⟩] : List SRV).filter (matchPW 1 100) :=
  (allSRV_sortAll_spec _).2.2.1 1 100

/-- C4: with last-good caching enabled, `doCacheLast` stores a non-nil,
non-empty-answer result under the hostname key and returns it with both
counters unchanged; on a nil or empty-answer result it returns the
stored entry and bumps the hit counter when one exists, and otherwise
returns the original result and bumps the miss counter; and it never
removes a stored key. -/
theorem doCacheLast_spec (cm : List (String × Msg)) (hits misses : Nat)
    (h : String) (res : Option Msg) :
    (∀ m, res = some m → m.answer ≠ [] →
      doCacheLast ⟨some cm, hits, misses⟩ h res =
        (some m, ⟨some (alistInsert cm h m), hits, misses⟩)) ∧
    ((res = none ∨ ∃ m, res = some m ∧ m.answer = []) →
      (∀ c, alistFind cm h = some c →
        doCacheLast ⟨some cm, hits, misses⟩ h res = (some c, ⟨some cm, hits + 1, misses⟩)) ∧
      (alistFind cm h = none →
        doCacheLast ⟨some cm, hits, misses⟩ h res = (res, ⟨some cm, hits, misses + 1⟩))) ∧
    (∀ k, (alistFind cm k).isSome = true →
      ∃ cm2, (doCacheLast ⟨some cm, hits, misses⟩ h res).2.cacheLast = some cm2 ∧
        (alistFind cm2 k).isSome = true) := by
  refine ⟨?_, ?_, ?_⟩
  · intro m hm hne
    subst hm
    exact doCacheLast_store cm hits misses h m hne
  · intro hres
    exact ⟨fun c hc => doCacheLast_hit cm hits misses h res c hres hc,
      fun hn => doCacheLast_miss cm hits misses h res hres hn⟩
  · intro k hk
    cases res with
    | none =>
      cases hfind : alistFind cm h with
      | some c =>
        rw [doCacheLast_hit cm hits misses h none c (Or.inl rfl) hfind]
        exact ⟨cm, rfl, hk⟩
      | none =>
        rw [doCacheLast_miss cm hits misses h none (Or.inl rfl) hfind]
        exact ⟨cm, rfl, hk⟩
    | some m =>
      by_cases hne : m.answer = []
      · cases hfind : alistFind cm h with
        | some c =>
          rw [doCacheLast_hit cm hits misses h (some m) c (Or.inr ⟨m, rfl, hne⟩) hfind]
          exact ⟨cm, rfl, hk⟩
        | none =>
          rw [doCacheLast_miss cm hits misses h (some m) (Or.inr ⟨m, rfl, hne⟩) hfind]
          exact ⟨cm, rfl, hk⟩
      · rw [doCacheLast_store cm hits misses h m hne]
        refine ⟨alistInsert cm h m, rfl, ?_⟩
        rw [alistFind_insert]
        by_cases hhk : (h == k) = true
        · rw [if_pos hhk]
          rfl
        · rw [if_neg hhk]
          exact hk

/-- C4 witness: storing a successful response, then masking a failed
lookup for the same hostname with it. -/
theorem doCacheLast_spec_witness :
    doCacheLast ⟨some [], 0, 0⟩ "svc.test." (some cachedMsg)
      = (some cachedMsg, ⟨some [("svc.test.", cachedMsg)], 0, 0⟩) ∧
    doCacheLast ⟨some [("svc.test.", cachedMsg)], 0, 0⟩ "svc.test." none
      = (some cachedMsg, ⟨some [("svc.test.", cachedMsg)], 1, 0⟩) := by
  constructor
  · have h := (doCacheLast_spec [] 0 0 "svc.test." (some cachedMsg)).1 cachedMsg rfl
      (by decide)
    exact h.trans (by decide)
  · have h := ((doCacheLast_spec [("svc.test.", cachedMsg)] 0 0 "svc.test." none).2.1
      (Or.inl rfl)).1 cachedMsg (by decide)
    exact h.trans (by decide)

/-- C3: after the server loop of `innerLookupSRV`, when a truncated
response `t` with success status was captured and the result of the
last-good-cache step is a non-success message, the returned message is
the truncated one routed through the cache (so with caching disabled it
is exactly `t`); when the cache step produced a success — in
particular a cached substitute — that success is returned and the
truncated response is not used. -/
theorem innerLookupSRV_truncated_preference (exch : Exchanger) (it : Bool)
    (st : CacheState) (fq : String) (servers : List String) (t : Msg)
    (ht : (innerLoopRes exch it servers).2.1 = some t)
    (hts : t.rcode = rcodeSuccess) :
    (∀ m, (doCacheLast st fq (innerLoopRes exch it servers).1).1 = some m →
      m.rcode ≠ rcodeSuccess →
      (innerLookupSRV exch it st fq servers false).1.1 =
        (doCacheLast (doCacheLast st fq (innerLoopRes exch it servers).1).2 fq (some t)).1) ∧
    (∀ m, (doCacheLast st fq (innerLoopRes exch it servers).1).1 = some m →
      m.rcode = rcodeSuccess →
      (innerLookupSRV exch it st fq servers false).1.1 = some m) ∧
    (st.cacheLast = none →
      ∀ m, (doCacheLast st fq (innerLoopRes exch it servers).1).1 = some m →
      m.rcode ≠ rcodeSuccess →
      (innerLookupSRV exch it st fq servers false).1.1 = some t) := by
  have hcs : cacheStep st fq false (innerLoopRes exch it servers).1
      = doCacheLast st fq (innerLoopRes exch it servers).1 := rfl
  have hrw : innerLookupSRV exch it st fq servers false
      = innerLookupPost st fq false (innerLoopRes exch it servers).1
          (innerLoopRes exch it servers).2.1 (innerLoopRes exch it servers).2.2 := rfl
  refine ⟨?_, ?_, ?_⟩
  · intro m hm hrc
    have hcond : truncSwap (cacheStep st fq false (innerLoopRes exch it servers).1).1
        (innerLoopRes exch it servers).2.1 = true := by
      rw [hcs, hm, ht]
      simp [truncSwap, hrc, hts]
    rw [hrw]
    unfold innerLookupPost
    rw [if_pos hcond, if_neg (by simp), ht, hcs]
  · intro m hm hrc
    have hcond : truncSwap (cacheStep st fq false (innerLoopRes exch it servers).1).1
        (innerLoopRes exch it servers).2.1 = false := by
      rw [hcs, hm, ht]
      simp [truncSwap, hrc]
    rw [hrw]
    unfold innerLookupPost
    rw [if_neg (by rw [hcond]; exact Bool.false_ne_true), hcs, hm]
  · intro hnone m hm hrc
    have hcond : truncSwap (cacheStep st fq false (innerLoopRes exch it servers).1).1
        (innerLoopRes exch it servers).2.1 = true := by
      rw [hcs, hm, ht]
      simp [truncSwap, hrc, hts]
    rw [hrw]
    unfold innerLookupPost
    rw [if_pos hcond, if_neg (by simp), ht, hcs,
      doCacheLast_disabled _ ((doCacheLast_disabled st hnone fq _) ▸ hnone) fq (some t)]

/-- C3 witness: with cache disabled, the truncated success response
beats the later non-success TCP response. -/
theorem innerLookupSRV_truncated_preference_witness :
    (innerLookupSRV truncExch false ⟨none, 0, 0⟩ "x.test." ["s1"] false).1.1
      = some truncMsg := by
  have h := (innerLookupSRV_truncated_preference truncExch false ⟨none, 0, 0⟩ "x.test."
    ["s1"] truncMsg rfl rfl).2.2 rfl servFailMsg rfl (by decide)
  exact h

/-- C5: under Go defer semantics the run-owning goroutine of
`lookupSRV` deletes the in-flight key strictly before closing the
completion channel, so every state in which the waiters have been
released has the key absent, and `callerStartsNewRun` holds for a
caller arriving in such a state. -/
theorem inFlight_delete_before_close :
    doEvents = [RunEvent.setResult, RunEvent.deleteKey, RunEvent.closeDone] ∧
    (statesFrom ⟨true, false, false⟩ doEvents).all
      (fun s => !s.doneClosed || (!s.inFlight && callerStartsNewRun s.inFlight)) = true :=
  ⟨rfl, by decide⟩

/-- C10: an in-flight run can complete with a nil message and a non-nil
error (every exchange failed), and the waiter's copy step
`res.msg.Copy()` then dereferences a nil pointer instead of being
total — the copy is performed before the nil check of `lookupSRV`. -/
theorem waiter_copy_nil_msg_panics :
    (innerLookupSRV failExch false ⟨none, 0, 0⟩ "srv.test." ["127.0.0.1:53"] false).1
      = (none, some (.exchange "connection refused")) ∧
    waiterReceive none (some (.exchange "connection refused"))
      = .error "nil pointer dereference" :=
  ⟨rfl, rfl⟩

/-- C9: when `net.SplitHostPort` yields a non-empty host and port and
the host parses as a literal IP, `srv` returns the input unchanged with
no error and without consulting the lookup path; when
`net.SplitHostPort` fails (as on a bare IP with no port), `srv` is not
bypassed and proceeds to resolution of the full input. -/
theorem srv_ip_bypass :
    (∀ (split : String → Option (String × String)) (isIP : String → Bool)
        (lookup : String → List SRV × Option DNSError) (r : Nat) (hostname h p : String),
      split hostname = some (h, p) → h ≠ "" → p ≠ "" → isIP h = true →
      srv split isIP lookup r hostname = (.ok hostname none, false)) ∧
    (∀ (split : String → Option (String × String)) (isIP : String → Bool)
        (lookup : String → List SRV × Option DNSError) (r : Nat) (hostname : String),
      split hostname = none →
      srv split isIP lookup r hostname
        = (srvAfterLookup (lookup hostname).1 (lookup hostname).2 "" r, true)) := by
  constructor
  · intro split isIP lookup r hostname h p hsplit hh hp hip
    unfold srv
    rw [hsplit]
    have hcond : ((p != "") && (h != "")) = true := by
      simp [bne_iff_ne, hh, hp]
    rw [if_pos hcond, if_pos hip]
  · intro split isIP lookup r hostname hsplit
    unfold srv
    rw [hsplit]
    rw [if_neg (by simp)]

/-- C9 witness: `10.0.0.2:9999` is returned unchanged without querying;
a bare `10.0.0.2` goes to resolution. -/
theorem srv_ip_bypass_witness :
    srv ipSplit (fun _ => true) (fun _ => ([], some .noNameservers)) 0 "10.0.0.2:9999"
      = (.ok "10.0.0.2:9999" none, false) ∧
    srv (fun _ => none) (fun _ => true) (fun _ => ([], some .noNameservers)) 0 "10.0.0.2"
      = (.fatal .noNameservers, true) := by
  constructor
  · exact srv_ip_bypass.1 ipSplit (fun _ => true) (fun _ => ([], some .noNameservers)) 0
      "10.0.0.2:9999" "10.0.0.2" "9999" (by decide) (by decide) (by decide) rfl
  · have h := srv_ip_bypass.2 (fun _ => none) (fun _ => true)
      (fun _ => ([], some .noNameservers)) 0 "10.0.0.2" rfl
    exact h.trans (by decide)

/-- C6: the single-target and all-targets tails fail only when the
answer list is empty (a non-empty answer always yields formatted
addresses, with any leftover transport error passed alongside as a
non-fatal signal); and when the cache layer substitutes an answer after
every exchange failed, the pipeline returns the substitute's records
together with the transport error, and the single-target tail formats
an address from the substitute. -/
theorem srv_error_only_when_no_answer :
    (∀ (s0 : SRV) (rest : List SRV) (err : Option DNSError) (port : String) (r : Nat),
      ∃ s, pickSRV (s0 :: rest) r = some s ∧
        srvAfterLookup (s0 :: rest) err port r = .ok (srvToStr s port) err) ∧
    (∀ (ans : List SRV) (err : Option DNSError) (port : String) (r : Nat) (e : DNSError),
      srvAfterLookup ans err port r = .fatal e → ans = [] ∧ err = some e) ∧
    (∀ (s0 : SRV) (rest : List SRV) (err : Option DNSError) (og : String),
      allSRVAfterLookup (s0 :: rest) err og
        = (some ((sortAll (s0 :: rest)).map (fun s => srvToStr s og)), err)) ∧
    (∀ (ans : List SRV) (err : Option DNSError) (og : String) (e : DNSError),
      allSRVAfterLookup ans err og = (none, some e) → ans = [] ∧ err = some e) ∧
    (∀ (exch : Exchanger) (it : Bool) (cm : List (String × Msg)) (hits misses : Nat)
        (hostname : String) (servers : List String) (cmsg : Msg) (e : DNSError)
        (rep : Bool) (port : String) (r : Nat),
      innerLoopRes exch it servers = (none, none, some e) →
      alistFind cm (fqdnOf hostname) = some cmsg →
      answersFromMsg cmsg rep ≠ [] →
      (lookupSRVPipeline exch it ⟨some cm, hits, misses⟩ hostname servers rep false).1
          = (answersFromMsg cmsg rep, some e) ∧
      ∃ s, pickSRV (answersFromMsg cmsg rep) r = some s ∧
        srvAfterLookup (answersFromMsg cmsg rep) (some e) port r
          = .ok (srvToStr s port) (some e)) := by
  have tail_ok : ∀ (s0 : SRV) (rest : List SRV) (err : Option DNSError) (port : String)
      (r : Nat), ∃ s, pickSRV (s0 :: rest) r = some s ∧
        srvAfterLookup (s0 :: rest) err port r = .ok (srvToStr s port) err := by
    intro s0 rest err port r
    obtain ⟨hne, _, _⟩ := pickTier_spec s0 rest
    obtain ⟨s, hs, _⟩ := pickSRV_total_mem (s0 :: rest) r hne
    refine ⟨s, hs, ?_⟩
    cases err <;> simp [srvAfterLookup, hs]
  refine ⟨tail_ok, ?_, ?_, ?_, ?_⟩
  · intro ans err port r e hf
    cases ans with
    | nil =>
      cases err with
      | none => simp [srvAfterLookup, pickSRV, pickTier] at hf
      | some e2 =>
        simp only [srvAfterLookup] at hf
        cases hf
        exact ⟨rfl, rfl⟩
    | cons s0 rest =>
      obtain ⟨s, hs, hok⟩ := tail_ok s0 rest err port r
      rw [hok] at hf
      cases hf
  · intro s0 rest err og
    cases err <;> simp [allSRVAfterLookup]
  · intro ans err og e hf
    cases ans with
    | nil =>
      cases err with
      | none => simp [allSRVAfterLookup] at hf
      | some e2 =>
        simp only [allSRVAfterLookup, Prod.mk.injEq] at hf
        exact ⟨rfl, hf.2⟩
    | cons s0 rest =>
      cases err <;> simp [allSRVAfterLookup] at hf
  · intro exch it cm hits misses hostname servers cmsg e rep port r hloop hfind hans
    have hpipe : (lookupSRVPipeline exch it ⟨some cm, hits, misses⟩ hostname servers rep
        false).1 = (answersFromMsg cmsg rep, some e) := by
      unfold lookupSRVPipeline innerLookupSRV
      rw [hloop]
      have hcache : doCacheLast ⟨some cm, hits, misses⟩ (fqdnOf hostname) none
          = (some cmsg, ⟨some cm, hits + 1, misses⟩) :=
        doCacheLast_hit cm hits misses (fqdnOf hostname) none cmsg (Or.inl rfl) hfind
      have hcs : cacheStep ⟨some cm, hits, misses⟩ (fqdnOf hostname) false none
          = (some cmsg, ⟨some cm, hits + 1, misses⟩) := hcache
      unfold innerLookupPost
      rw [hcs]
      have hts : truncSwap (some cmsg, (⟨some cm, hits + 1, misses⟩ : CacheState)).1 none
          = false := rfl
      rw [if_neg (by rw [hts]; exact Bool.false_ne_true)]
      show lookupSRVTail hostname (some cmsg) (some e) rep = _
      have hemp : (answersFromMsg cmsg rep).isEmpty = false := by
        cases hcase : answersFromMsg cmsg rep
        · exact absurd hcase hans
        · rfl
      simp [lookupSRVTail, hemp]
    refine ⟨hpipe, ?_⟩
    obtain ⟨s0, rest, hd⟩ := List.exists_cons_of_ne_nil hans
    rw [hd]
    exact tail_ok s0 rest (some e) port r

/-- C6 witness: all servers fail, the cache substitutes its stored
answer, and the single-target tail formats an address from it while the
transport error is passed alongside. -/
theorem srv_error_only_when_no_answer_witness :
    (lookupSRVPipeline failExch false ⟨some [("svc.test.", cachedMsg)], 0, 0⟩ "svc.test"
        ["127.0.0.1:53"] false false).1
      = ([⟨"cached.host.", 1234, 5, 7⟩], some (.exchange "connection refused")) ∧
    srvAfterLookup [⟨"cached.host.", 1234, 5, 7⟩] (some (.exchange "connection refused"))
        "" 0
      = .ok "cached.host.:1234" (some (.exchange "connection refused")) := by
  have h := srv_error_only_when_no_answer.2.2.2.2 failExch false
    [("svc.test.", cachedMsg)] 0 0 "svc.test" ["127.0.0.1:53"] cachedMsg
    (.exchange "connection refused") false "" 0 rfl (by decide) (by decide)
  refine ⟨h.1.trans (by decide), ?_⟩
  obtain ⟨s, hs, hok⟩ := h.2
  have hsv : s = ⟨"cached.host.", 1234, 5, 7⟩ := by
    have : pickSRV (answersFromMsg cachedMsg false) 0 = some ⟨"cached.host.", 1234, 5, 7⟩ :=
      by decide
    rw [this] at hs
    cases hs
    rfl
  have h2 := hok
  rw [hsv] at h2
  have h3 : answersFromMsg cachedMsg false = [⟨"cached.host.", 1234, 5, 7⟩] := by decide
  rw [h3] at h2
  exact h2.trans (by decide)

end SrvClient
